import Mathlib

/-!
Verification of the lithrez REZ archive reader.

This file gives a shallow embedding of the decoder in src/src/rez.rs,
src/src/io_ext.rs and the glob compiler in src/src/main.rs, and proves the
frozen claims about them.  Bytes are modelled as natural numbers (< 256 in
any real input); a sequential byte source is a List Nat consumed from the
front; a seekable source is a List Nat together with an explicit cursor
position threaded through the functions.  Fallible Rust code returning
Result<_, Error> is modelled with Except RezError.
-/

/-- Mirrors io::ErrorKind as far as it can arise from reads over in-memory
data: read_exact over a slice or Cursor only ever fails with UnexpectedEof. -/
inductive IoErrorKind where
| unexpectedEof
deriving DecidableEq

/-- Mirrors rez::Error.  The two encode-value errors carry the raw bytes of
the offending token (the Rust code carries the bytes before UTF-8 decoding
resp. the decoded string, which is uniquely determined by the bytes). -/
inductive RezError where
| io (kind : IoErrorKind)
| invalidControlByte (index : Nat) (expectedOneOf : Nat × Nat) (obtained : Nat)
| invalidVersion (expected obtained : Nat)
| invalidDetectHead (head detectHead : Nat)
| invalidDetectTail (tail detectTail : Nat)
| invalidEncodeUtf8 (detectionValue : Bool) (bytes : List Nat)
| invalidEncodeInteger (detectionValue : Bool) (stringBytes : List Nat)
| encodeValueMismatch (encodeValue detectEncodeValue : Nat)
| unknownEntryType (typeCode : Nat)
deriving DecidableEq

/-- Mirrors Read::read_exact on a sequential in-memory source: returns the
next n bytes and the rest, or UnexpectedEof when fewer than n bytes remain. -/
def readExact (n : Nat) (s : List Nat) : Except RezError (List Nat × List Nat) :=
  if n ≤ s.length then .ok (s.take n, s.drop n)
  else .error (.io .unexpectedEof)

/-- u32::from_le_bytes on a 4-byte buffer. -/
def u32FromLe (l : List Nat) : Nat :=
  l.getD 0 0 + 2 ^ 8 * l.getD 1 0 + 2 ^ 16 * l.getD 2 0 + 2 ^ 24 * l.getD 3 0

/-- Mirrors ReadExt::read_u32_le (io_ext.rs): read_exact 4 bytes, combine
little-endian. -/
def readU32 (s : List Nat) : Except RezError (Nat × List Nat) :=
  match readExact 4 s with
  | .error e => .error e
  | .ok (buf, rest) => .ok (u32FromLe buf, rest)

/-- Mirrors ReadExt::read_nul_terminated_byte_string (io_ext.rs): read single
bytes until a 0x00 byte, which is consumed but not returned; end of data
before the terminator is an I/O error. -/
def readNulTerminated : List Nat → Except RezError (List Nat × List Nat)
| [] => .error (.io .unexpectedEof)
| b :: rest =>
  if b = 0 then .ok ([], rest)
  else match readNulTerminated rest with
    | .error e => .error e
    | .ok (r, s) => .ok (b :: r, s)

/-- Mirrors FileHeader::strip_trailing_spaces: pop trailing 0x20 bytes. -/
def stripTrailingSpaces (l : List Nat) : List Nat :=
  (l.reverse.dropWhile (fun b => b == 0x20)).reverse

/-- Mirrors without_trailing_zero_bytes. -/
def withoutTrailingZeroBytes (l : List Nat) : List Nat :=
  (l.reverse.dropWhile (fun b => b == 0)).reverse

/-- Mirrors without_leading_zero_bytes. -/
def withoutLeadingZeroBytes (l : List Nat) : List Nat :=
  l.dropWhile (fun b => b == 0)

/-- Mirrors char::from_u32: Some exactly on valid Unicode scalar values. -/
def charFromU32 (n : Nat) : Option Char :=
  if h : n.isValidChar then some (Char.ofNatAux n h) else none

/-- Mirrors iso88591_bytes_to_string (rez.rs): push char::from_u32(b).unwrap()
for every byte.  The unwrap is modelled by returning an Option here; the
decoder below uses iso88591Unwrap. -/
def iso88591BytesToString (bytes : List Nat) : Option String :=
  match bytes.mapM charFromU32 with
  | some cs => some (String.mk cs)
  | none => none

/-- The unwrap of the char conversion in iso88591_bytes_to_string.  For real
inputs every byte is < 256 and hence a valid code point, so the default is
never taken (this is claim C7). -/
def iso88591Unwrap (bytes : List Nat) : String :=
  (iso88591BytesToString bytes).getD ""

/-! ## Glob compiler (main.rs, glob_pattern_to_regex)

The Rust function builds an anchored regex string out of four kinds of
pieces: literal characters (either passed through verbatim or escaped, in
both cases matching exactly that character), the class [^/] for one
non-separator character, [^/]+ for a run of one from a single asterisk, and
.+ (any character except newline, one or more) for a run emitted from
multiple asterisks.  We model the produced regex as a token list and give
the regex semantics of those tokens directly. -/

inductive Tok where
| lit (c : Char)
| nonSlash
| nonSlashPlus
| anyPlus
deriving DecidableEq

/-- Token translation of glob_pattern_to_regex: the accumulator mirrors
asterisk_counter.  Note the faithful asymmetry: inside the loop a run of two
or more asterisks emits the any-plus matcher (counter >= 2), but a trailing
run emits it only for counter > 2, so a pattern ending in exactly two
asterisks emits nothing for them. -/
def globTokens : List Char → Nat → List Tok
| [], counter =>
  if counter = 1 then [Tok.nonSlashPlus]
  else if counter > 2 then [Tok.anyPlus]
  else []
| c :: cs, counter =>
  if c = '*' then globTokens cs (counter + 1)
  else
    (if counter = 1 then [Tok.nonSlashPlus]
     else if counter ≥ 2 then [Tok.anyPlus]
     else []) ++
    (if c = '\\' then [Tok.lit '/']
     else if c = '?' then [Tok.nonSlash]
     else [Tok.lit c]) ++
    globTokens cs 0

/-- All remainders obtainable by dropping one or more leading characters
that satisfy p (the semantics of a regex one-or-more quantifier over a
character class). -/
def dropPlus (p : Char → Bool) : List Char → List (List Char)
| [] => []
| x :: s => if p x then s :: dropPlus p s else []

/-- The possible remainders after one token consumes a nonempty prefix of
the candidate: a literal or [^/] consumes exactly one character; the plus
matchers consume one or more.  [^/] matches any character except the slash
(including newline); . matches any character except newline. -/
def tokStep : Tok → List Char → List (List Char)
| Tok.lit _, [] => []
| Tok.lit c, x :: s => if x == c then [s] else []
| Tok.nonSlash, [] => []
| Tok.nonSlash, x :: s => if x != '/' then [s] else []
| Tok.nonSlashPlus, s => dropPlus (fun x => x != '/') s
| Tok.anyPlus, s => dropPlus (fun x => x != '\n') s

/-- Regex semantics of the emitted token list, anchored at both ends (the
Rust code wraps the body in ^ and $). -/
def tokMatch : List Tok → List Char → Bool
| [], s => s.isEmpty
| t :: ts, s => (tokStep t s).any (fun r => tokMatch ts r)

/-- Whether the regex compiled from the glob pattern matches the whole
candidate string. -/
def globMatch (pattern candidate : String) : Bool :=
  tokMatch (globTokens pattern.data 0) candidate.data

/-! ## File header decoder (rez.rs, FileHeader::try_read) -/

/-- Whether a byte is a UTF-8 continuation byte. -/
def isCont (b : Nat) : Bool := 0x80 ≤ b && b ≤ 0xBF

/-- Standard UTF-8 validity check, mirroring std::str::from_utf8's
success/failure (the claims only condition on its outcome). -/
def utf8Valid : List Nat → Bool
| [] => true
| b :: rest =>
  if b ≤ 0x7F then utf8Valid rest
  else if 0xC2 ≤ b && b ≤ 0xDF then
    match rest with
    | b1 :: rest2 => isCont b1 && utf8Valid rest2
    | [] => false
  else if b = 0xE0 then
    match rest with
    | b1 :: b2 :: rest2 => (0xA0 ≤ b1 && b1 ≤ 0xBF) && isCont b2 && utf8Valid rest2
    | _ => false
  else if (0xE1 ≤ b && b ≤ 0xEC) || b = 0xEE || b = 0xEF then
    match rest with
    | b1 :: b2 :: rest2 => isCont b1 && isCont b2 && utf8Valid rest2
    | _ => false
  else if b = 0xED then
    match rest with
    | b1 :: b2 :: rest2 => (0x80 ≤ b1 && b1 ≤ 0x9F) && isCont b2 && utf8Valid rest2
    | _ => false
  else if b = 0xF0 then
    match rest with
    | b1 :: b2 :: b3 :: rest2 =>
      (0x90 ≤ b1 && b1 ≤ 0xBF) && isCont b2 && isCont b3 && utf8Valid rest2
    | _ => false
  else if 0xF1 ≤ b && b ≤ 0xF3 then
    match rest with
    | b1 :: b2 :: b3 :: rest2 => isCont b1 && isCont b2 && isCont b3 && utf8Valid rest2
    | _ => false
  else if b = 0xF4 then
    match rest with
    | b1 :: b2 :: b3 :: rest2 =>
      (0x80 ≤ b1 && b1 ≤ 0x8F) && isCont b2 && isCont b3 && utf8Valid rest2
    | _ => false
  else false

/-- str::parse::<u32> on the bytes of an (ASCII) string: an optional leading
plus sign, then one or more decimal digits, value below 2^32.  A non-ASCII
character is never a digit, so checking bytes is equivalent to checking
chars. -/
def parseU32 (bytes : List Nat) : Option Nat :=
  let digits := match bytes with
    | 0x2B :: rest => rest
    | _ => bytes
  if digits.isEmpty then none
  else if digits.all (fun b => 0x30 ≤ b && b ≤ 0x39) then
    let v := digits.foldl (fun acc b => acc * 10 + (b - 0x30)) 0
    if v < 2 ^ 32 then some v else none
  else none

/-- The trim/UTF-8-decode/integer-parse pipeline applied to the 32-byte
encode and detect_encode buffers in the 0x2A branch of FileHeader::try_read,
with its two error cases. -/
def decodeEncodeValue (detectionValue : Bool) (buf : List Nat) : Except RezError Nat :=
  let bytes := withoutTrailingZeroBytes buf
  if utf8Valid bytes then
    match parseU32 bytes with
    | some v => .ok v
    | none => .error (.invalidEncodeInteger detectionValue bytes)
  else .error (.invalidEncodeUtf8 detectionValue bytes)

/-- Mirrors rez::FileHeader. -/
structure FileHeader where
  fileType : List Nat
  userTitle : List Nat
  version : Nat
  rootDirPosition : Nat
  rootDirSize : Nat
  rootDirTime : Nat
  nextWritePos : Nat
  time : Nat
  largestKeyAry : Nat
  largestDirNameSize : Nat
  largestRezNameSize : Nat
  largestCommentSize : Nat
  isSorted : Bool
deriving DecidableEq

/-- Mirrors FileHeader::check_crlf. -/
def checkCrlf (value index expected1 expected2 : Nat) : Except RezError Unit :=
  if value = expected1 ∨ value = expected2 then .ok ()
  else .error (.invalidControlByte index (expected1, expected2) value)

/-- The variant-independent tail of FileHeader::try_read (rez.rs lines
180-207): the nine fixed u32 fields and the is_sorted byte, shared by every
header variant. -/
def readFixedTail (fileType userTitle : List Nat) (version : Nat) (s : List Nat) :
    Except RezError (FileHeader × List Nat) := do
  let (rootDirPos, s) ← readU32 s
  let (rootDirSize, s) ← readU32 s
  let (rootDirTime, s) ← readU32 s
  let (nextWritePos, s) ← readU32 s
  let (time, s) ← readU32 s
  let (largestKeyAry, s) ← readU32 s
  let (largestDirNameSize, s) ← readU32 s
  let (largestRezNameSize, s) ← readU32 s
  let (largestCommentSize, s) ← readU32 s
  let (oneBuf, s) ← readExact 1 s
  let isSorted : Bool := oneBuf.getD 0 0 ≠ 0
  .ok ({ fileType, userTitle, version,
         rootDirPosition := rootDirPos, rootDirSize, rootDirTime,
         nextWritePos, time, largestKeyAry, largestDirNameSize,
         largestRezNameSize, largestCommentSize, isSorted }, s)

/-- Mirrors FileHeader::try_read on a sequential byte source.  The final
else branch (third control byte neither 0x1A nor 0x2A) is unreachable
because checkCrlf has already required one of the two, and corresponds to
the Rust code falling through with version still 0. -/
def FileHeader.tryRead (s : List Nat) : Except RezError (FileHeader × List Nat) := do
  let (two, s) ← readExact 2 s
  let _ ← checkCrlf (two.getD 0 0) 0 13 38
  let _ ← checkCrlf (two.getD 1 0) 1 10 35
  let (fileTypeBuf, s) ← readExact 60 s
  let fileType := stripTrailingSpaces fileTypeBuf
  let (twoB, s) ← readExact 2 s
  let _ ← checkCrlf (twoB.getD 0 0) 2 13 33
  let _ ← checkCrlf (twoB.getD 1 0) 3 10 34
  let (userTitleBuf, s) ← readExact 60 s
  let userTitle := stripTrailingSpaces userTitleBuf
  let (three, s) ← readExact 3 s
  let _ ← checkCrlf (three.getD 0 0) 4 13 37
  let _ ← checkCrlf (three.getD 1 0) 5 10 39
  let _ ← checkCrlf (three.getD 2 0) 6 26 42
  if three.getD 2 0 = 26 then do
    let (version, s) ← readU32 s
    if version = 1 then readFixedTail fileType userTitle 1 s
    else do
      let (_, s) ← readExact 3 s
      let (version2, s) ← readU32 s
      if version2 ≠ 2 then .error (.invalidVersion 2 version2)
      else readFixedTail fileType userTitle 2 s
  else if three.getD 2 0 = 42 then do
    let (oneBuf, s) ← readExact 1 s
    let head := oneBuf.getD 0 0
    let (encodeBuf, s) ← readExact 32 s
    let (twoBuf, s) ← readExact 2 s
    let tail := twoBuf.getD 0 0
    let detectHead := twoBuf.getD 1 0
    if detectHead ≠ Nat.xor head 0x11 then .error (.invalidDetectHead head detectHead)
    else do
      let encodeValue ← decodeEncodeValue false encodeBuf
      let expectedEncodeValue := Nat.xor encodeValue 0x016B4423
      let (detectEncodeBuf, s) ← readExact 32 s
      let detectEncodeValue ← decodeEncodeValue true detectEncodeBuf
      if detectEncodeValue ≠ expectedEncodeValue then
        .error (.encodeValueMismatch encodeValue detectEncodeValue)
      else do
        let (oneBuf2, s) ← readExact 1 s
        let detectTail := oneBuf2.getD 0 0
        if detectTail ≠ Nat.xor tail 0x11 then .error (.invalidDetectTail tail detectTail)
        else do
          let (version, s) ← readU32 s
          if version ≠ 1 then .error (.invalidVersion 1 version)
          else readFixedTail fileType userTitle 1 s
  else readFixedTail fileType userTitle 0 s

/-! ## Directory-block decoder (rez.rs, read_directory_entries_recursive)

The seekable live source is a List Nat plus an explicit cursor position
(rpos).  Rust's unbounded recursion is modelled with a fuel parameter that
every recursive call decrements; exhausted fuel yields none (the Rust code
has no such case -- it simply recurses -- so none never corresponds to a
value the program returns, and the theorems supply enough fuel). -/

/-- Mirrors rez::EntryType (from_to_other: 0 = Resource, 1 = Directory,
anything else Other(code)). -/
inductive EntryType where
| resource
| directory
| other (code : Nat)
deriving DecidableEq

/-- The u32 -> EntryType conversion generated by from_to_other. -/
def EntryType.ofNat (n : Nat) : EntryType :=
  if n = 0 then .resource else if n = 1 then .directory else .other n

/-- Mirrors rez::EntryHeader. -/
structure EntryHeader where
  entryType : EntryType
  position : Nat
  size : Nat
  time : Nat
deriving DecidableEq

/-- Mirrors rez::Entry / rez::Resource / rez::Directory as one nested
inductive. -/
inductive Entry where
| resource (header : EntryHeader) (id : Nat) (extension name description : String)
    (keys : List Nat)
| directory (header : EntryHeader) (name : String) (entries : List Entry)

/-- Mirrors EntryHeader::try_read_next: UnexpectedEof on the first 4-byte
field ends the stream (Ok(None)); any other error, and any error on the
remaining three fields, propagates. -/
def tryReadNext (s : List Nat) : Except RezError (Option (EntryHeader × List Nat)) :=
  match readU32 s with
  | .error (.io .unexpectedEof) => .ok none
  | .error e => .error e
  | .ok (etn, s) =>
    match readU32 s with
    | .error e => .error e
    | .ok (position, s) =>
      match readU32 s with
      | .error e => .error e
      | .ok (size, s) =>
        match readU32 s with
        | .error e => .error e
        | .ok (time, s) =>
          .ok (some ({ entryType := EntryType.ofNat etn, position, size, time }, s))

/-- The key-reading for loop of the Resource arm: num_keys u32 reads, in
order. -/
def readKeys : Nat → List Nat → Except RezError (List Nat × List Nat)
| 0, s => .ok ([], s)
| n + 1, s =>
  match readU32 s with
  | .error e => .error e
  | .ok (k, s) =>
    match readKeys n s with
    | .error e => .error e
    | .ok (ks, s2) => .ok (k :: ks, s2)

mutual

/-- Mirrors read_directory_entries_recursive: seek the live source to
position, read exactly length bytes into an isolated cursor (buf), then run
the entry loop over it.  Returns the decoded entries together with the live
source's final cursor position. -/
def readDirectoryEntriesRecursive (fuel : Nat) (file : List Nat)
    (rpos position length : Nat) : Option (Except RezError (List Entry × Nat)) :=
  match fuel with
  | 0 => none
  | fuel + 1 =>
    if position + length ≤ file.length then
      entryLoop fuel file ((file.drop position).take length) (position + length)
    else some (.error (.io .unexpectedEof))

/-- The while-let loop of read_directory_entries_recursive over the isolated
cursor buf; rpos is the live source's cursor position.  The Directory arm
records rpos (stream_position), recurses against the live source, and
continues the loop at the recorded position (seek back). -/
def entryLoop (fuel : Nat) (file : List Nat) (buf : List Nat) (rpos : Nat) :
    Option (Except RezError (List Entry × Nat)) :=
  match fuel with
  | 0 => none
  | fuel + 1 =>
    match tryReadNext buf with
    | .error e => some (.error e)
    | .ok none => some (.ok ([], rpos))
    | .ok (some (header, s)) =>
      match header.entryType with
      | .directory =>
        match readNulTerminated s with
        | .error e => some (.error e)
        | .ok (nameBytes, s) =>
          let name := iso88591Unwrap nameBytes
          let savedPosition := rpos
          match readDirectoryEntriesRecursive fuel file rpos header.position header.size with
          | none => none
          | some (.error e) => some (.error e)
          | some (.ok (subEntries, _)) =>
            match entryLoop fuel file s savedPosition with
            | none => none
            | some (.error e) => some (.error e)
            | some (.ok (es, r)) =>
              some (.ok (Entry.directory header name subEntries :: es, r))
      | .resource =>
        match readU32 s with
        | .error e => some (.error e)
        | .ok (id, s) =>
          match readExact 4 s with
          | .error e => some (.error e)
          | .ok (extensionBytes, s) =>
            let extension := iso88591Unwrap (withoutLeadingZeroBytes extensionBytes.reverse)
            match readU32 s with
            | .error e => some (.error e)
            | .ok (numKeys, s) =>
              match readNulTerminated s with
              | .error e => some (.error e)
              | .ok (nameBytes, s) =>
                let name := iso88591Unwrap nameBytes
                match readNulTerminated s with
                | .error e => some (.error e)
                | .ok (descriptionBytes, s) =>
                  let description := iso88591Unwrap descriptionBytes
                  match readKeys numKeys s with
                  | .error e => some (.error e)
                  | .ok (keys, s) =>
                    match entryLoop fuel file s rpos with
                    | none => none
                    | some (.error e) => some (.error e)
                    | some (.ok (es, r)) =>
                      some (.ok (Entry.resource header id extension name description keys :: es, r))
      | .other code => some (.error (.unknownEntryType code))

end

/-! ## Synthetic directory blocks (for the round-trip claim)

EncInput is the abstract content of a directory block: the on-disk header
fields, the raw on-disk field bytes of each record, and for directories the
child inputs.  recordBytes is the on-disk encoding of one record exactly as
in the binary layout; wfBlock says that a (position, length) range of the
file holds exactly the records of the given inputs and that every nested
directory's range recursively does so too. -/

/-- u32 little-endian encoding, the inverse of u32FromLe on values < 2^32. -/
def u32Le (v : Nat) : List Nat :=
  [v % 256, v / 2 ^ 8 % 256, v / 2 ^ 16 % 256, v / 2 ^ 24 % 256]

/-- Abstract content of a directory block entry. -/
inductive EncInput where
| res (position size time id : Nat) (ext name description : List Nat) (keys : List Nat)
| dir (position size time : Nat) (name : List Nat) (children : List EncInput)

/-- The on-disk bytes of one directory-block record (§6 binary layout):
16-byte entry header, then the type-specific trailing fields. -/
def recordBytes : EncInput → List Nat
| .res p s t id ext name desc keys =>
  u32Le 0 ++ u32Le p ++ u32Le s ++ u32Le t ++ u32Le id ++ ext ++
    u32Le keys.length ++ name ++ [0] ++ desc ++ [0] ++ (keys.map u32Le).flatten
| .dir p s t name _ =>
  u32Le 1 ++ u32Le p ++ u32Le s ++ u32Le t ++ name ++ [0]

/-- The Entry value the decoder is expected to produce from one input:
every field equals the encoded input, with the extension reversed, stripped
of leading zero bytes and legacy-decoded, exactly as the decoder does. -/
def toEntry : EncInput → Entry
| .res p s t id ext name desc keys =>
  .resource { entryType := .resource, position := p, size := s, time := t } id
    (iso88591Unwrap (withoutLeadingZeroBytes ext.reverse))
    (iso88591Unwrap name) (iso88591Unwrap desc) keys
| .dir p s t name children =>
  .directory { entryType := .directory, position := p, size := s, time := t }
    (iso88591Unwrap name) (children.attach.map (fun c => toEntry c.1))
termination_by e => sizeOf e
decreasing_by
  simp_wf
  cases c with
  | mk val property =>
    have := List.sizeOf_lt_of_mem property
    simp only []
    omega

mutual

/-- The byte range [position, position + length) of file is inside the file
and holds exactly the records of inputs, and every nested directory block is
in turn well formed. -/
def wfBlock (file : List Nat) (position length : Nat) (inputs : List EncInput) : Bool :=
  decide (position + length ≤ file.length) &&
  decide ((file.drop position).take length = (inputs.map recordBytes).flatten) &&
  wfList file inputs

/-- Well-formedness of a list of block entries. -/
def wfList (file : List Nat) : List EncInput → Bool
| [] => true
| e :: rest => wfEntry file e && wfList file rest

/-- Field-level well-formedness of one entry: u32 fields below 2^32, the
extension exactly 4 bytes, NUL-terminated fields free of zero bytes, all
field bytes genuine bytes; a directory's range must recursively encode its
children. -/
def wfEntry (file : List Nat) : EncInput → Bool
| .res p s t id ext name desc keys =>
  decide (p < 2 ^ 32) && decide (s < 2 ^ 32) && decide (t < 2 ^ 32) &&
  decide (id < 2 ^ 32) && decide (ext.length = 4) &&
  ext.all (fun b => decide (b < 256)) &&
  decide (keys.length < 2 ^ 32) && keys.all (fun k => decide (k < 2 ^ 32)) &&
  name.all (fun b => decide (b < 256) && decide (b ≠ 0)) &&
  desc.all (fun b => decide (b < 256) && decide (b ≠ 0))
| .dir p s t name children =>
  decide (p < 2 ^ 32) && decide (s < 2 ^ 32) && decide (t < 2 ^ 32) &&
  name.all (fun b => decide (b < 256) && decide (b ≠ 0)) &&
  wfBlock file p s children

end

mutual

/-- Fuel sufficient for readDirectoryEntriesRecursive on a well-formed
block. -/
def fuelBlock : List EncInput → Nat
| inputs => fuelLoop inputs + 1

/-- Fuel sufficient for entryLoop on the records of inputs. -/
def fuelLoop : List EncInput → Nat
| [] => 1
| e :: rest => max (fuelEntry e) (fuelLoop rest) + 1

/-- Fuel sufficient for decoding the nested blocks of one entry. -/
def fuelEntry : EncInput → Nat
| .res _ _ _ _ _ _ _ _ => 0
| .dir _ _ _ _ children => fuelBlock children

end

/-! # Theorems -/

/-! ## General helpers -/

theorem okBind {α β : Type} (a : α) (f : α → Except RezError β) :
    (Except.ok a >>= f) = f a := rfl

theorem bindEqOk {α β : Type} {x : Except RezError α} {f : α → Except RezError β}
    {b : β} (h : x >>= f = .ok b) : ∃ a, x = .ok a ∧ f a = .ok b := by
  cases x with
  | error e => exact absurd h (by simp [Bind.bind, Except.bind])
  | ok a => exact ⟨a, rfl, h⟩

theorem charFromU32_byte {n : Nat} (h : n < 256) :
    ∃ c : Char, charFromU32 n = some c ∧ c.toNat = n := by
  have hv : n.isValidChar := Or.inl (by omega)
  refine ⟨Char.ofNatAux n hv, ?_, rfl⟩
  rw [charFromU32, dif_pos hv]

theorem mapM_charFromU32 {bytes : List Nat} (hb : ∀ b ∈ bytes, b < 256) :
    ∃ cs : List Char, bytes.mapM charFromU32 = some cs ∧
      cs.map Char.toNat = bytes ∧ cs.length = bytes.length := by
  induction bytes with
  | nil => exact ⟨[], rfl, rfl, rfl⟩
  | cons b rest ih =>
    obtain ⟨c, hc, hct⟩ := charFromU32_byte (hb b (List.mem_cons_self b rest))
    obtain ⟨cs, hcs, hmap, hlen⟩ := ih (fun x hx => hb x (List.mem_cons_of_mem _ hx))
    refine ⟨c :: cs, ?_, by simp [hmap, hct], by simp [hlen]⟩
    rw [List.mapM_cons, hc, hcs]
    rfl

/-! ## C7: legacy text decoder -/

/-- C7: the legacy text decoder is total on byte sequences (the internal
char conversion succeeds on every byte value) and length-preserving, and
each output code point has the same numeric value as its input byte. -/
theorem iso88591_total_length_preserving (bytes : List Nat)
    (hb : ∀ b ∈ bytes, b < 256) :
    ∃ s : String, iso88591BytesToString bytes = some s ∧
      s.length = bytes.length ∧ s.data.map Char.toNat = bytes := by
  obtain ⟨cs, hcs, hmap, hlen⟩ := mapM_charFromU32 hb
  refine ⟨String.mk cs, ?_, ?_, ?_⟩
  · rw [iso88591BytesToString, hcs]
  · simpa [String.length]
  · simpa

theorem iso88591_total_length_preserving_witness :
    ∃ s : String, iso88591BytesToString [0, 65, 255] = some s ∧
      s.length = ([0, 65, 255] : List Nat).length ∧
      s.data.map Char.toNat = [0, 65, 255] :=
  iso88591_total_length_preserving [0, 65, 255] (by decide)

/-! ## C10: NUL-terminated string fields -/

theorem readNulTerminated_split (s : List Nat) (h0 : 0 ∈ s) :
    ∃ pre post, s = pre ++ 0 :: post ∧ 0 ∉ pre ∧
      readNulTerminated s = .ok (pre, post) := by
  induction s with
  | nil => cases h0
  | cons b rest ih =>
    by_cases hb0 : b = 0
    · subst hb0
      exact ⟨[], rest, rfl, by simp, by simp [readNulTerminated]⟩
    · have h0' : 0 ∈ rest := by
        rcases List.mem_cons.mp h0 with h | h
        · exact absurd h.symm hb0
        · exact h
      obtain ⟨pre, post, hsplit, hnotin, hread⟩ := ih h0'
      refine ⟨b :: pre, post, by simp [hsplit], ?_, ?_⟩
      · simp only [List.mem_cons, not_or]
        exact ⟨fun h => hb0 h.symm, hnotin⟩
      · simp [readNulTerminated, hb0, hread]

/-- C10: read_nul_terminated_byte_string consumes bytes up to and including
the first 0x00 and excludes the terminator from the returned bytes, so
every decoded NUL-terminated field contains no zero byte and its decoded
string contains no U+0000 code point. -/
theorem readNulTerminated_no_nul (s : List Nat) (h0 : 0 ∈ s)
    (hb : ∀ b ∈ s, b < 256) :
    ∃ pre post, s = pre ++ 0 :: post ∧ 0 ∉ pre ∧
      readNulTerminated s = .ok (pre, post) ∧
      ∀ c ∈ (iso88591Unwrap pre).data, c.toNat ≠ 0 := by
  obtain ⟨pre, post, hsplit, hnotin, hread⟩ := readNulTerminated_split s h0
  refine ⟨pre, post, hsplit, hnotin, hread, ?_⟩
  have hbpre : ∀ b ∈ pre, b < 256 := fun b hbp =>
    hb b (by rw [hsplit]; exact List.mem_append_left _ hbp)
  obtain ⟨cs, hcs, hmap, _⟩ := mapM_charFromU32 hbpre
  intro c hc hzero
  have hiso : iso88591Unwrap pre = String.mk cs := by
    rw [iso88591Unwrap, iso88591BytesToString, hcs]
    rfl
  rw [hiso] at hc
  have hcmem : c ∈ cs := hc
  have : (0 : Nat) ∈ pre := by
    rw [← hmap]
    exact List.mem_map.mpr ⟨c, hcmem, hzero⟩
  exact hnotin this

theorem readNulTerminated_no_nul_witness :
    ∃ pre post, ([65, 0, 66] : List Nat) = pre ++ 0 :: post ∧ 0 ∉ pre ∧
      readNulTerminated [65, 0, 66] = .ok (pre, post) ∧
      ∀ c ∈ (iso88591Unwrap pre).data, c.toNat ≠ 0 :=
  readNulTerminated_no_nul [65, 0, 66] (by decide) (by decide)

/-! ## C8: glob compiler (evaluation at the spec's examples and at the
failing input) -/

/-- C8: the compiled matcher at the claim's examples.  The final conjuncts
exhibit the divergence: a run of exactly two asterisks at the end of the
pattern emits no matcher at all (the trailing flush tests counter > 2
although the in-loop flush tests counter >= 2), so the pattern a** matches
only the literal a, and ** matches only the empty string, where the claim
requires one-or-more characters of any kind. -/
theorem glob_eval_at_failing_input :
    globMatch "*.txt" "a.txt" = true ∧
    globMatch "*.txt" "dir/a.txt" = false ∧
    globMatch "**.txt" "a.txt" = true ∧
    globMatch "**.txt" "dir/a.txt" = true ∧
    globMatch "a?c.txt" "abc.txt" = true ∧
    globMatch "a?c.txt" "ac.txt" = false ∧
    globMatch "a?c.txt" "abbc.txt" = false ∧
    globMatch "***" "a" = true ∧
    globMatch "**" "" = true ∧
    globMatch "**" "a" = false ∧
    globMatch "a**" "ab" = false := by decide

/-! ## C2: end-of-block behaviour of the entry loop -/

theorem readU32_eq (s : List Nat) :
    readU32 s = if 4 ≤ s.length then .ok (u32FromLe (s.take 4), s.drop 4)
      else .error (.io .unexpectedEof) := by
  rw [readU32, readExact]
  split_ifs with h <;> rfl

theorem tryReadNext_shortfall (buf : List Nat) (h4 : 4 ≤ buf.length)
    (h16 : buf.length < 16) : tryReadNext buf = .error (.io .unexpectedEof) := by
  by_cases h8 : buf.length < 8
  · have hd : ¬ 4 ≤ buf.length - 4 := by omega
    simp [tryReadNext, readU32_eq, List.length_drop, List.drop_drop, h4, hd]
  · by_cases h12 : buf.length < 12
    · have hd1 : 4 ≤ buf.length - 4 := by omega
      have hd2 : ¬ 4 ≤ buf.length - 8 := by omega
      simp [tryReadNext, readU32_eq, List.length_drop, List.drop_drop, h4, hd1, hd2]
    · have hd1 : 4 ≤ buf.length - 4 := by omega
      have hd2 : 4 ≤ buf.length - 8 := by omega
      have hd3 : ¬ 4 ≤ buf.length - 12 := by omega
      simp [tryReadNext, readU32_eq, List.length_drop, List.drop_drop, h4, hd1,
        hd2, hd3]

theorem tryReadNext_empty (buf : List Nat) (h : buf.length < 4) :
    tryReadNext buf = .ok none := by
  have h4 : ¬ 4 ≤ buf.length := by omega
  simp [tryReadNext, readU32_eq, h4]

/-- C2 counterexample: a directory block holding two leftover bytes (a
shortfall of the first 4-byte entry-header field) decodes successfully to
the empty entry list instead of failing with an I/O error. -/
theorem leftover_bytes_success_counterexample :
    readDirectoryEntriesRecursive 2 [0, 0] 0 0 2 = some (.ok ([], 2)) := rfl

/-- C2 amended: reaching the end of the isolated cursor with zero bytes
remaining ends the loop successfully, and so does a shortfall of one to
three leftover bytes at the first 4-byte field of the next entry header
(read_exact reports UnexpectedEof, which try_read_next treats as clean end
of data); a shortfall within the remaining three fields of the 16-byte
entry header is a propagated I/O error. -/
theorem entry_loop_eof_behavior (fuel : Nat) (file : List Nat)
    (rpos position length : Nat) (hin : position + length ≤ file.length)
    (hlen : length < 16) :
    readDirectoryEntriesRecursive (fuel + 2) file rpos position length =
      if length < 4 then some (.ok ([], position + length))
      else some (.error (.io .unexpectedEof)) := by
  have hbuf : ((file.drop position).take length).length = length := by
    simp [List.length_take, List.length_drop]
    omega
  rw [readDirectoryEntriesRecursive]
  rw [if_pos hin]
  by_cases h4 : length < 4
  · rw [if_pos h4, entryLoop, tryReadNext_empty _ (by omega)]
  · rw [if_neg h4, entryLoop, tryReadNext_shortfall _ (by omega) (by omega)]

theorem entry_loop_eof_behavior_witness :
    readDirectoryEntriesRecursive 2 [0, 0] 0 0 2 =
      if (2 : Nat) < 4 then some (.ok ([], 0 + 2))
      else some (.error (.io .unexpectedEof)) :=
  entry_loop_eof_behavior 0 [0, 0] 0 0 2 (by decide) (by decide)

/-! ## C9: the live source position is unchanged by the entry loop -/

/-- C9: the recursive descent into a directory entry's child block records
the live source's position and restores it afterwards, so the entry loop
leaves the live source's cursor where it found it: whenever the loop
succeeds, the returned live position equals the one it started with. -/
theorem entryLoop_preserves_position :
    ∀ fuel file buf rpos es r,
      entryLoop fuel file buf rpos = some (.ok (es, r)) → r = rpos := by
  intro fuel
  induction fuel with
  | zero =>
    intro file buf rpos es r h
    simp [entryLoop] at h
  | succ f ih =>
    intro file buf rpos es r h
    rw [entryLoop] at h
    split at h
    · simp at h
    · simp at h
      exact h.2.symm
    · split at h
      · split at h
        · simp at h
        · simp only [] at h
          split at h
          · simp at h
          · simp at h
          · next es' r' heq =>
            split at h
            · simp at h
            · simp at h
            · next es'' r'' heq2 =>
              simp at h
              rw [← h.2]
              exact ih _ _ _ _ _ heq2
      · split at h
        · simp at h
        · split at h
          · simp at h
          · split at h
            · simp at h
            · split at h
              · simp at h
              · split at h
                · simp at h
                · split at h
                  · simp at h
                  · next es' r' heq =>
                    split at h
                    · simp at h
                    · simp at h
                    · next es'' r'' heq2 =>
                      simp at h
                      rw [← h.2]
                      exact ih _ _ _ _ _ heq2
      · simp at h

theorem entryLoop_preserves_position_witness :
    entryLoop 2 [] [0,0,0,0, 5,0,0,0, 6,0,0,0, 9,0,0,0, 3,0,0,0, 0,0,0,0,
        0,0,0,0, 97,0, 0] 7 =
      some (.ok ([Entry.resource
        { entryType := .resource, position := 5, size := 6, time := 9 }
        3 "" "a" "" []], 7)) ∧ (7 : Nat) = 7 := by
  have h : entryLoop 2 [] [0,0,0,0, 5,0,0,0, 6,0,0,0, 9,0,0,0, 3,0,0,0,
      0,0,0,0, 0,0,0,0, 97,0, 0] 7 =
      some (.ok ([Entry.resource
        { entryType := .resource, position := 5, size := 6, time := 9 }
        3 "" "a" "" []], 7)) := rfl
  exact ⟨h, entryLoop_preserves_position 2 _ _ 7 _ 7 h⟩

/-! ## C3: the version of a successfully parsed header is 1 or 2 -/

theorem checkCrlf_ok {v i e1 e2 : Nat} {u : Unit}
    (h : checkCrlf v i e1 e2 = .ok u) : v = e1 ∨ v = e2 := by
  by_cases hc : v = e1 ∨ v = e2
  · exact hc
  · rw [checkCrlf, if_neg hc] at h
    exact absurd h (by simp)

theorem readFixedTail_version {ft ut : List Nat} {v : Nat} {s : List Nat}
    {fh : FileHeader} {r : List Nat}
    (h : readFixedTail ft ut v s = .ok (fh, r)) : fh.version = v := by
  rw [readFixedTail] at h
  obtain ⟨⟨a1, s1⟩, hb1, h⟩ := bindEqOk h
  obtain ⟨⟨a2, s2⟩, hb2, h⟩ := bindEqOk h
  obtain ⟨⟨a3, s3⟩, hb3, h⟩ := bindEqOk h
  obtain ⟨⟨a4, s4⟩, hb4, h⟩ := bindEqOk h
  obtain ⟨⟨a5, s5⟩, hb5, h⟩ := bindEqOk h
  obtain ⟨⟨a6, s6⟩, hb6, h⟩ := bindEqOk h
  obtain ⟨⟨a7, s7⟩, hb7, h⟩ := bindEqOk h
  obtain ⟨⟨a8, s8⟩, hb8, h⟩ := bindEqOk h
  obtain ⟨⟨a9, s9⟩, hb9, h⟩ := bindEqOk h
  obtain ⟨⟨a10, s10⟩, hb10, h⟩ := bindEqOk h
  simp only [Except.ok.injEq, Prod.mk.injEq] at h
  obtain ⟨h1, -⟩ := h
  rw [← h1]

/-- C3: whenever FileHeader::try_read returns Ok, the version field of the
returned header is exactly 1 or exactly 2. -/
theorem tryRead_version_one_or_two (s : List Nat) (fh : FileHeader)
    (rest : List Nat) (h : FileHeader.tryRead s = .ok (fh, rest)) :
    fh.version = 1 ∨ fh.version = 2 := by
  rw [FileHeader.tryRead] at h
  obtain ⟨⟨two, s1⟩, he1, h⟩ := bindEqOk h
  obtain ⟨u1, hc1, h⟩ := bindEqOk h
  obtain ⟨u2, hc2, h⟩ := bindEqOk h
  obtain ⟨⟨ftb, s2⟩, he2, h⟩ := bindEqOk h
  obtain ⟨⟨twoB, s3⟩, he3, h⟩ := bindEqOk h
  obtain ⟨u3, hc3, h⟩ := bindEqOk h
  obtain ⟨u4, hc4, h⟩ := bindEqOk h
  obtain ⟨⟨utb, s4⟩, he4, h⟩ := bindEqOk h
  obtain ⟨⟨three, s5⟩, he5, h⟩ := bindEqOk h
  obtain ⟨u5, hc5, h⟩ := bindEqOk h
  obtain ⟨u6, hc6, h⟩ := bindEqOk h
  obtain ⟨u, hc, h⟩ := bindEqOk h
  have h2642 : three.getD 2 0 = 26 ∨ three.getD 2 0 = 42 := checkCrlf_ok hc
  by_cases hA : three.getD 2 0 = 26
  · simp only [if_pos hA] at h
    obtain ⟨⟨v1, s6⟩, hv0, h⟩ := bindEqOk h
    by_cases hv1 : v1 = 1
    · simp only [if_pos hv1] at h
      exact Or.inl (readFixedTail_version h)
    · simp only [if_neg hv1] at h
      obtain ⟨⟨junk, s7⟩, hj1, h⟩ := bindEqOk h
      obtain ⟨⟨v2, s8⟩, hj2, h⟩ := bindEqOk h
      by_cases hv2 : v2 ≠ 2
      · simp only [if_pos hv2] at h
        exact absurd h (by simp)
      · simp only [if_neg hv2] at h
        exact Or.inr (readFixedTail_version h)
  · simp only [if_neg hA] at h
    have hB : three.getD 2 0 = 42 := by tauto
    simp only [if_pos hB] at h
    obtain ⟨⟨one1, s6⟩, hk1, h⟩ := bindEqOk h
    obtain ⟨⟨enc, s7⟩, hk2, h⟩ := bindEqOk h
    obtain ⟨⟨twoC, s8⟩, hk3, h⟩ := bindEqOk h
    split at h
    · exact absurd h (by simp)
    · obtain ⟨ev, hk4, h⟩ := bindEqOk h
      obtain ⟨⟨dec, s9⟩, hk5, h⟩ := bindEqOk h
      obtain ⟨dv, hk6, h⟩ := bindEqOk h
      split at h
      · exact absurd h (by simp)
      · obtain ⟨⟨one2, s10⟩, hk7, h⟩ := bindEqOk h
        split at h
        · exact absurd h (by simp)
        · obtain ⟨⟨v1, s11⟩, hk8, h⟩ := bindEqOk h
          split at h
          · exact absurd h (by simp)
          · exact Or.inl (readFixedTail_version h)

set_option maxRecDepth 10000 in
theorem tryRead_version_one_or_two_witness :
    ∃ fh : FileHeader, FileHeader.tryRead
      ([13, 10] ++ List.replicate 60 32 ++ [13, 10] ++ List.replicate 60 32 ++
        [13, 10, 26] ++ [1, 0, 0, 0] ++ List.replicate 36 0 ++ [0]) =
      .ok (fh, []) ∧ (fh.version = 1 ∨ fh.version = 2) := by
  have h : FileHeader.tryRead
      ([13, 10] ++ List.replicate 60 32 ++ [13, 10] ++ List.replicate 60 32 ++
        [13, 10, 26] ++ [1, 0, 0, 0] ++ List.replicate 36 0 ++ [0]) =
      .ok (⟨[], [], 1, 0, 0, 0, 0, 0, 0, 0, 0, 0, false⟩, []) := rfl
  exact ⟨_, h, tryRead_version_one_or_two _ _ _ h⟩

/-! ## C5: the 0x1A header variant's version logic -/

theorem readExact_append (l r : List Nat) {n : Nat} (h : l.length = n) :
    readExact n (l ++ r) = .ok (l, r) := by
  rw [readExact, if_pos]
  · subst h
    rw [List.take_left, List.drop_left]
  · subst h
    simp [List.length_append]

theorem readU32_append {l : List Nat} (r : List Nat) (h : l.length = 4) :
    readU32 (l ++ r) = .ok (u32FromLe l, r) := by
  rw [readU32, readExact_append l r h]

/-- C5: in the 0x1A header variant the decoder reads a 4-byte little-endian
version; if it is 1 it proceeds directly to the fixed tail with no further
variant bytes consumed; otherwise it discards exactly the next 3 bytes and
reads a second 4-byte version, failing with InvalidVersion (expected 2)
unless that value is 2, in which case it proceeds to the fixed tail. -/
theorem header1A_version_branch
    (b1 b2 b3 b4 b5 b6 : Nat) (fileTypeBuf userTitleBuf : List Nat)
    (v1b filler v2b rest : List Nat)
    (hft : fileTypeBuf.length = 60) (hut : userTitleBuf.length = 60)
    (h1 : b1 = 13 ∨ b1 = 38) (h2 : b2 = 10 ∨ b2 = 35)
    (h3 : b3 = 13 ∨ b3 = 33) (h4 : b4 = 10 ∨ b4 = 34)
    (h5 : b5 = 13 ∨ b5 = 37) (h6 : b6 = 10 ∨ b6 = 39)
    (hv1 : v1b.length = 4) (hf : filler.length = 3) (hv2 : v2b.length = 4) :
    (u32FromLe v1b = 1 →
      FileHeader.tryRead ([b1, b2] ++ (fileTypeBuf ++ ([b3, b4] ++
          (userTitleBuf ++ ([b5, b6, 26] ++ (v1b ++ (filler ++ (v2b ++ rest)))))))) =
        readFixedTail (stripTrailingSpaces fileTypeBuf)
          (stripTrailingSpaces userTitleBuf) 1 (filler ++ (v2b ++ rest))) ∧
    (u32FromLe v1b ≠ 1 → u32FromLe v2b ≠ 2 →
      FileHeader.tryRead ([b1, b2] ++ (fileTypeBuf ++ ([b3, b4] ++
          (userTitleBuf ++ ([b5, b6, 26] ++ (v1b ++ (filler ++ (v2b ++ rest)))))))) =
        .error (.invalidVersion 2 (u32FromLe v2b))) ∧
    (u32FromLe v1b ≠ 1 → u32FromLe v2b = 2 →
      FileHeader.tryRead ([b1, b2] ++ (fileTypeBuf ++ ([b3, b4] ++
          (userTitleBuf ++ ([b5, b6, 26] ++ (v1b ++ (filler ++ (v2b ++ rest)))))))) =
        readFixedTail (stripTrailingSpaces fileTypeBuf)
          (stripTrailingSpaces userTitleBuf) 2 rest) := by
  have e1 : ∀ r' : List Nat, readExact 2 ([b1, b2] ++ r') = .ok ([b1, b2], r') :=
    fun r' => readExact_append _ _ rfl
  have e2 : ∀ r' : List Nat, readExact 60 (fileTypeBuf ++ r') = .ok (fileTypeBuf, r') :=
    fun r' => readExact_append _ _ hft
  have e3 : ∀ r' : List Nat, readExact 2 ([b3, b4] ++ r') = .ok ([b3, b4], r') :=
    fun r' => readExact_append _ _ rfl
  have e4 : ∀ r' : List Nat, readExact 60 (userTitleBuf ++ r') = .ok (userTitleBuf, r') :=
    fun r' => readExact_append _ _ hut
  have e5 : ∀ r' : List Nat, readExact 3 ([b5, b6, 26] ++ r') = .ok ([b5, b6, 26], r') :=
    fun r' => readExact_append _ _ rfl
  have e6 : ∀ r' : List Nat, readU32 (v1b ++ r') = .ok (u32FromLe v1b, r') :=
    fun r' => readU32_append r' hv1
  have e7 : ∀ r' : List Nat, readExact 3 (filler ++ r') = .ok (filler, r') :=
    fun r' => readExact_append _ _ hf
  have e8 : ∀ r' : List Nat, readU32 (v2b ++ r') = .ok (u32FromLe v2b, r') :=
    fun r' => readU32_append r' hv2
  have cc1 : checkCrlf b1 0 13 38 = .ok () := by rw [checkCrlf, if_pos h1]
  have cc2 : checkCrlf b2 1 10 35 = .ok () := by rw [checkCrlf, if_pos h2]
  have cc3 : checkCrlf b3 2 13 33 = .ok () := by rw [checkCrlf, if_pos h3]
  have cc4 : checkCrlf b4 3 10 34 = .ok () := by rw [checkCrlf, if_pos h4]
  have cc5 : checkCrlf b5 4 13 37 = .ok () := by rw [checkCrlf, if_pos h5]
  have cc6 : checkCrlf b6 5 10 39 = .ok () := by rw [checkCrlf, if_pos h6]
  have cc7 : checkCrlf 26 6 26 42 = .ok () := by rw [checkCrlf, if_pos (Or.inl rfl)]
  have g1 : ∀ x y : Nat, ([x, y] : List Nat).getD 0 0 = x := fun _ _ => rfl
  have g2 : ∀ x y : Nat, ([x, y] : List Nat).getD 1 0 = y := fun _ _ => rfl
  have g3 : ∀ x y z : Nat, ([x, y, z] : List Nat).getD 0 0 = x := fun _ _ _ => rfl
  have g4 : ∀ x y z : Nat, ([x, y, z] : List Nat).getD 1 0 = y := fun _ _ _ => rfl
  have g5 : ∀ x y z : Nat, ([x, y, z] : List Nat).getD 2 0 = z := fun _ _ _ => rfl
  refine ⟨?_, ?_, ?_⟩
  · intro hv
    simp only [FileHeader.tryRead, e1, e2, e3, e4, e5, e6, okBind, g1, g2, g3,
      g4, g5, cc1, cc2, cc3, cc4, cc5, cc6, cc7, if_true,
      if_pos (rfl : (26 : Nat) = 26), if_pos hv]
  · intro hv hv2'
    simp only [FileHeader.tryRead, e1, e2, e3, e4, e5, e6, e7, e8, okBind, g1,
      g2, g3, g4, g5, cc1, cc2, cc3, cc4, cc5, cc6, cc7, if_true,
      if_pos (rfl : (26 : Nat) = 26), if_neg hv, if_pos hv2']
  · intro hv hv2'
    have hnn : ¬ u32FromLe v2b ≠ 2 := fun hn => hn hv2'
    simp only [FileHeader.tryRead, e1, e2, e3, e4, e5, e6, e7, e8, okBind, g1,
      g2, g3, g4, g5, cc1, cc2, cc3, cc4, cc5, cc6, cc7, if_true,
      if_pos (rfl : (26 : Nat) = 26), if_neg hv, if_neg hnn]

theorem header1A_version_branch_witness :
    (u32FromLe [1, 0, 0, 0] = 1 →
      FileHeader.tryRead ([13, 10] ++ (List.replicate 60 32 ++ ([13, 10] ++
          (List.replicate 60 32 ++ ([13, 10, 26] ++ ([1, 0, 0, 0] ++
            ([0, 0, 0] ++ ([2, 0, 0, 0] ++ ([] : List Nat))))))))) =
        readFixedTail (stripTrailingSpaces (List.replicate 60 32))
          (stripTrailingSpaces (List.replicate 60 32)) 1
          ([0, 0, 0] ++ ([2, 0, 0, 0] ++ ([] : List Nat)))) ∧
    (u32FromLe [1, 0, 0, 0] ≠ 1 → u32FromLe [2, 0, 0, 0] ≠ 2 →
      FileHeader.tryRead ([13, 10] ++ (List.replicate 60 32 ++ ([13, 10] ++
          (List.replicate 60 32 ++ ([13, 10, 26] ++ ([1, 0, 0, 0] ++
            ([0, 0, 0] ++ ([2, 0, 0, 0] ++ ([] : List Nat))))))))) =
        .error (.invalidVersion 2 (u32FromLe [2, 0, 0, 0]))) ∧
    (u32FromLe [1, 0, 0, 0] ≠ 1 → u32FromLe [2, 0, 0, 0] = 2 →
      FileHeader.tryRead ([13, 10] ++ (List.replicate 60 32 ++ ([13, 10] ++
          (List.replicate 60 32 ++ ([13, 10, 26] ++ ([1, 0, 0, 0] ++
            ([0, 0, 0] ++ ([2, 0, 0, 0] ++ ([] : List Nat))))))))) =
        readFixedTail (stripTrailingSpaces (List.replicate 60 32))
          (stripTrailingSpaces (List.replicate 60 32)) 2 ([] : List Nat)) :=
  header1A_version_branch 13 10 13 10 13 10 (List.replicate 60 32)
    (List.replicate 60 32) [1, 0, 0, 0] [0, 0, 0] [2, 0, 0, 0] []
    (by simp) (by simp) (Or.inl rfl) (Or.inl rfl) (Or.inl rfl) (Or.inl rfl)
    (Or.inl rfl) (Or.inl rfl) rfl rfl rfl

/-! ## C4: the three detection checks of the 0x2A header variant -/

/-- C4: for every input taking the 0x2A header branch, a detect_head not
equal to head XOR 0x11 fails with InvalidDetectHead; with detect_head
correct, successfully decoded encode and detect_encode values whose
relation detect_encode = encode XOR 0x016B4423 fails yield
EncodeValueMismatch; with that relation holding, a detect_tail not equal to
tail XOR 0x11 fails with InvalidDetectTail.  In each case the whole read
returns the named error, never a successful parse. -/
theorem header2A_detect_checks
    (b1 b2 b3 b4 b5 b6 : Nat) (fileTypeBuf userTitleBuf : List Nat)
    (head tail detectHead detectTail : Nat)
    (encodeBuf detectEncodeBuf vb rest : List Nat) (ev dv : Nat)
    (hft : fileTypeBuf.length = 60) (hut : userTitleBuf.length = 60)
    (h1 : b1 = 13 ∨ b1 = 38) (h2 : b2 = 10 ∨ b2 = 35)
    (h3 : b3 = 13 ∨ b3 = 33) (h4 : b4 = 10 ∨ b4 = 34)
    (h5 : b5 = 13 ∨ b5 = 37) (h6 : b6 = 10 ∨ b6 = 39)
    (henc : encodeBuf.length = 32) (hdec : detectEncodeBuf.length = 32) :
    (detectHead ≠ Nat.xor head 0x11 →
      FileHeader.tryRead ([b1, b2] ++ (fileTypeBuf ++ ([b3, b4] ++
          (userTitleBuf ++ ([b5, b6, 42] ++ ([head] ++ (encodeBuf ++
          ([tail, detectHead] ++ (detectEncodeBuf ++ ([detectTail] ++
          (vb ++ rest))))))))))) =
        .error (.invalidDetectHead head detectHead)) ∧
    (detectHead = Nat.xor head 0x11 →
      decodeEncodeValue false encodeBuf = .ok ev →
      decodeEncodeValue true detectEncodeBuf = .ok dv →
      dv ≠ Nat.xor ev 0x016B4423 →
      FileHeader.tryRead ([b1, b2] ++ (fileTypeBuf ++ ([b3, b4] ++
          (userTitleBuf ++ ([b5, b6, 42] ++ ([head] ++ (encodeBuf ++
          ([tail, detectHead] ++ (detectEncodeBuf ++ ([detectTail] ++
          (vb ++ rest))))))))))) =
        .error (.encodeValueMismatch ev dv)) ∧
    (detectHead = Nat.xor head 0x11 →
      decodeEncodeValue false encodeBuf = .ok ev →
      decodeEncodeValue true detectEncodeBuf = .ok dv →
      dv = Nat.xor ev 0x016B4423 →
      detectTail ≠ Nat.xor tail 0x11 →
      FileHeader.tryRead ([b1, b2] ++ (fileTypeBuf ++ ([b3, b4] ++
          (userTitleBuf ++ ([b5, b6, 42] ++ ([head] ++ (encodeBuf ++
          ([tail, detectHead] ++ (detectEncodeBuf ++ ([detectTail] ++
          (vb ++ rest))))))))))) =
        .error (.invalidDetectTail tail detectTail)) := by
  have e1 : ∀ r' : List Nat, readExact 2 ([b1, b2] ++ r') = .ok ([b1, b2], r') :=
    fun r' => readExact_append _ _ rfl
  have e2 : ∀ r' : List Nat, readExact 60 (fileTypeBuf ++ r') = .ok (fileTypeBuf, r') :=
    fun r' => readExact_append _ _ hft
  have e3 : ∀ r' : List Nat, readExact 2 ([b3, b4] ++ r') = .ok ([b3, b4], r') :=
    fun r' => readExact_append _ _ rfl
  have e4 : ∀ r' : List Nat, readExact 60 (userTitleBuf ++ r') = .ok (userTitleBuf, r') :=
    fun r' => readExact_append _ _ hut
  have e5 : ∀ r' : List Nat, readExact 3 ([b5, b6, 42] ++ r') = .ok ([b5, b6, 42], r') :=
    fun r' => readExact_append _ _ rfl
  have e6 : ∀ r' : List Nat, readExact 1 ([head] ++ r') = .ok ([head], r') :=
    fun r' => readExact_append _ _ rfl
  have e7 : ∀ r' : List Nat, readExact 32 (encodeBuf ++ r') = .ok (encodeBuf, r') :=
    fun r' => readExact_append _ _ henc
  have e8 : ∀ r' : List Nat, readExact 2 ([tail, detectHead] ++ r') =
      .ok ([tail, detectHead], r') := fun r' => readExact_append _ _ rfl
  have e9 : ∀ r' : List Nat, readExact 32 (detectEncodeBuf ++ r') =
      .ok (detectEncodeBuf, r') := fun r' => readExact_append _ _ hdec
  have e10 : ∀ r' : List Nat, readExact 1 ([detectTail] ++ r') = .ok ([detectTail], r') :=
    fun r' => readExact_append _ _ rfl
  have cc1 : checkCrlf b1 0 13 38 = .ok () := by rw [checkCrlf, if_pos h1]
  have cc2 : checkCrlf b2 1 10 35 = .ok () := by rw [checkCrlf, if_pos h2]
  have cc3 : checkCrlf b3 2 13 33 = .ok () := by rw [checkCrlf, if_pos h3]
  have cc4 : checkCrlf b4 3 10 34 = .ok () := by rw [checkCrlf, if_pos h4]
  have cc5 : checkCrlf b5 4 13 37 = .ok () := by rw [checkCrlf, if_pos h5]
  have cc6 : checkCrlf b6 5 10 39 = .ok () := by rw [checkCrlf, if_pos h6]
  have cc7 : checkCrlf 42 6 26 42 = .ok () := by rw [checkCrlf, if_pos (Or.inr rfl)]
  have g1 : ∀ x y : Nat, ([x, y] : List Nat).getD 0 0 = x := fun _ _ => rfl
  have g2 : ∀ x y : Nat, ([x, y] : List Nat).getD 1 0 = y := fun _ _ => rfl
  have g3 : ∀ x y z : Nat, ([x, y, z] : List Nat).getD 0 0 = x := fun _ _ _ => rfl
  have g4 : ∀ x y z : Nat, ([x, y, z] : List Nat).getD 1 0 = y := fun _ _ _ => rfl
  have g5 : ∀ x y z : Nat, ([x, y, z] : List Nat).getD 2 0 = z := fun _ _ _ => rfl
  have g6 : ∀ x : Nat, ([x] : List Nat).getD 0 0 = x := fun _ => rfl
  have hne : ((42 : Nat) = 26) = False := by simp
  refine ⟨?_, ?_, ?_⟩
  · intro hdh
    simp only [FileHeader.tryRead, e1, e2, e3, e4, e5, e6, e7, e8, okBind, g1,
      g2, g3, g4, g5, g6, cc1, cc2, cc3, cc4, cc5, cc6, cc7, hne, if_false,
      if_true, if_pos (rfl : (42 : Nat) = 42), if_pos hdh]
  · intro hdh hev hdv hmm
    have hdh' : ¬ detectHead ≠ Nat.xor head 0x11 := fun hn => hn hdh
    simp only [FileHeader.tryRead, e1, e2, e3, e4, e5, e6, e7, e8, e9, okBind,
      g1, g2, g3, g4, g5, g6, cc1, cc2, cc3, cc4, cc5, cc6, cc7, hne, if_false,
      if_true, if_pos (rfl : (42 : Nat) = 42), if_neg hdh', hev, hdv,
      if_pos hmm]
  · intro hdh hev hdv hmm hdt
    have hdh' : ¬ detectHead ≠ Nat.xor head 0x11 := fun hn => hn hdh
    have hmm' : ¬ dv ≠ Nat.xor ev 0x016B4423 := fun hn => hn hmm
    simp only [FileHeader.tryRead, e1, e2, e3, e4, e5, e6, e7, e8, e9, e10,
      okBind, g1, g2, g3, g4, g5, g6, cc1, cc2, cc3, cc4, cc5, cc6, cc7, hne,
      if_false, if_true, if_pos (rfl : (42 : Nat) = 42), if_neg hdh', hev, hdv,
      if_neg hmm', if_pos hdt]

set_option maxRecDepth 10000 in
theorem header2A_detect_checks_witness :
    FileHeader.tryRead ([13, 10] ++ (List.replicate 60 32 ++ ([13, 10] ++
        (List.replicate 60 32 ++ ([13, 10, 42] ++ ([0] ++
        ((48 :: List.replicate 31 0) ++ ([0, 17] ++
        (([50, 51, 56, 48, 55, 48, 49, 49] ++ List.replicate 24 0) ++
        ([0] ++ ([1, 0, 0, 0] ++ ([] : List Nat)))))))))))) =
      .error (.invalidDetectTail 0 0) :=
  (header2A_detect_checks 13 10 13 10 13 10 (List.replicate 60 32)
    (List.replicate 60 32) 0 0 17 0 (48 :: List.replicate 31 0)
    ([50, 51, 56, 48, 55, 48, 49, 49] ++ List.replicate 24 0) [1, 0, 0, 0] []
    0 23807011 (by simp) (by simp) (Or.inl rfl) (Or.inl rfl) (Or.inl rfl)
    (Or.inl rfl) (Or.inl rfl) (Or.inl rfl) (by simp) (by simp)).2.2
    (by decide) rfl rfl (by decide) (by decide)

/-! ## C1 and C6: decoding well-formed directory blocks -/

theorem u32FromLe_u32Le {v : Nat} (h : v < 2 ^ 32) : u32FromLe (u32Le v) = v := by
  have e : u32FromLe (u32Le v) = v % 256 + 256 * (v / 256 % 256) +
      65536 * (v / 65536 % 256) + 16777216 * (v / 16777216 % 256) := rfl
  rw [e]
  omega

theorem readU32_u32Le {v : Nat} (r : List Nat) (h : v < 2 ^ 32) :
    readU32 (u32Le v ++ r) = .ok (v, r) := by
  rw [readU32_append r (by rfl), u32FromLe_u32Le h]

theorem readNulTerminated_append (name r : List Nat) (h : ∀ b ∈ name, b ≠ 0) :
    readNulTerminated (name ++ 0 :: r) = .ok (name, r) := by
  induction name with
  | nil => simp [readNulTerminated]
  | cons b rest ih =>
    have hb : b ≠ 0 := h b (List.mem_cons_self b rest)
    simp [readNulTerminated, hb, ih (fun x hx => h x (List.mem_cons_of_mem _ hx))]

theorem readKeys_append (ks : List Nat) (r : List Nat)
    (h : ∀ k ∈ ks, k < 2 ^ 32) :
    readKeys ks.length ((ks.map u32Le).flatten ++ r) = .ok (ks, r) := by
  induction ks with
  | nil => simp [readKeys]
  | cons k rest ih =>
    have hk : k < 2 ^ 32 := h k (List.mem_cons_self k rest)
    have ih' := ih (fun x hx => h x (List.mem_cons_of_mem _ hx))
    simp only [List.length_cons, List.map_cons, List.flatten_cons,
      List.append_assoc]
    rw [readKeys, readU32_u32Le _ hk]
    simp only [ih']

theorem tryReadNext_record (etn p sz t : Nat) (r : List Nat) (he : etn < 2 ^ 32)
    (hp : p < 2 ^ 32) (hs : sz < 2 ^ 32) (ht : t < 2 ^ 32) :
    tryReadNext (u32Le etn ++ (u32Le p ++ (u32Le sz ++ (u32Le t ++ r)))) =
      .ok (some ({ entryType := EntryType.ofNat etn, position := p,
                   size := sz, time := t }, r)) := by
  rw [tryReadNext, readU32_u32Le _ he]
  simp only []
  rw [readU32_u32Le _ hp]
  simp only []
  rw [readU32_u32Le _ hs]
  simp only []
  rw [readU32_u32Le _ ht]

theorem entryLoop_nil (g : Nat) (file : List Nat) (rpos : Nat) (h : 1 ≤ g) :
    entryLoop g file [] rpos = some (.ok ([], rpos)) := by
  obtain ⟨g', rfl⟩ : ∃ g', g = g' + 1 := ⟨g - 1, by omega⟩
  rw [entryLoop, tryReadNext_empty [] (by simp)]

theorem wfBlock_parts {file : List Nat} {pos len : Nat} {inputs : List EncInput}
    (h : wfBlock file pos len inputs = true) :
    pos + len ≤ file.length ∧
      (file.drop pos).take len = (inputs.map recordBytes).flatten ∧
      wfList file inputs = true := by
  rw [wfBlock] at h
  simp only [Bool.and_eq_true, decide_eq_true_eq] at h
  exact ⟨h.1.1, h.1.2, h.2⟩

theorem wfList_cons {file : List Nat} {e : EncInput} {rest : List EncInput}
    (h : wfList file (e :: rest) = true) :
    wfEntry file e = true ∧ wfList file rest = true := by
  rw [wfList] at h
  simpa [Bool.and_eq_true] using h

theorem wfEntry_res {file : List Nat} {p s t id : Nat}
    {ext name desc : List Nat} {keys : List Nat}
    (h : wfEntry file (.res p s t id ext name desc keys) = true) :
    p < 2 ^ 32 ∧ s < 2 ^ 32 ∧ t < 2 ^ 32 ∧ id < 2 ^ 32 ∧ ext.length = 4 ∧
      keys.length < 2 ^ 32 ∧ (∀ k ∈ keys, k < 2 ^ 32) ∧
      (∀ b ∈ name, b ≠ 0) ∧ (∀ b ∈ desc, b ≠ 0) := by
  rw [wfEntry] at h
  simp only [Bool.and_eq_true, decide_eq_true_eq, List.all_eq_true] at h
  obtain ⟨⟨⟨⟨⟨⟨⟨⟨⟨hp, hs⟩, ht⟩, hid⟩, hext⟩, hextb⟩, hkl⟩, hkv⟩, hname⟩, hdesc⟩ := h
  exact ⟨hp, hs, ht, hid, hext, hkl, fun k hk => (hkv k hk),
    fun b hb => (hname b hb).2, fun b hb => (hdesc b hb).2⟩

theorem wfEntry_dir {file : List Nat} {p s t : Nat} {name : List Nat}
    {children : List EncInput}
    (h : wfEntry file (.dir p s t name children) = true) :
    p < 2 ^ 32 ∧ s < 2 ^ 32 ∧ t < 2 ^ 32 ∧ (∀ b ∈ name, b ≠ 0) ∧
      wfBlock file p s children = true := by
  rw [wfEntry] at h
  simp only [Bool.and_eq_true, decide_eq_true_eq, List.all_eq_true] at h
  obtain ⟨⟨⟨⟨hp, hs⟩, ht⟩, hname⟩, hblock⟩ := h
  exact ⟨hp, hs, ht, fun b hb => (hname b hb).2, hblock⟩

theorem length_lt_fuelLoop (inputs : List EncInput) :
    inputs.length < fuelLoop inputs := by
  induction inputs with
  | nil => simp [fuelLoop]
  | cons e rest ih =>
    rw [fuelLoop]
    have := Nat.le_max_right (fuelEntry e) (fuelLoop rest)
    simp only [List.length_cons]
    omega

theorem toEntry_dir (p s t : Nat) (name : List Nat) (children : List EncInput) :
    toEntry (.dir p s t name children) =
      .directory { entryType := .directory, position := p, size := s, time := t }
        (iso88591Unwrap name) (children.map toEntry) := by
  rw [toEntry]
  congr 1
  exact List.attach_map_val children toEntry

theorem decode_wf_blocks (fuel : Nat) :
    (∀ file rpos position length inputs,
      wfBlock file position length inputs = true → fuelBlock inputs ≤ fuel →
      readDirectoryEntriesRecursive fuel file rpos position length =
        some (.ok (inputs.map toEntry, position + length))) ∧
    (∀ file rpos inputs tailbuf,
      wfList file inputs = true → fuelLoop inputs ≤ fuel →
      entryLoop fuel file ((inputs.map recordBytes).flatten ++ tailbuf) rpos =
        match entryLoop (fuel - inputs.length) file tailbuf rpos with
        | none => none
        | some (.error e) => some (.error e)
        | some (.ok (es, r)) => some (.ok (inputs.map toEntry ++ es, r))) := by
  induction fuel with
  | zero =>
    constructor
    · intro file rpos position length inputs hwf hfuel
      rw [fuelBlock] at hfuel
      omega
    · intro file rpos inputs tailbuf hwf hfuel
      have := length_lt_fuelLoop inputs
      omega
  | succ f ih =>
    constructor
    · intro file rpos position length inputs hwf hfuel
      obtain ⟨hin, hbytes, hlist⟩ := wfBlock_parts hwf
      rw [readDirectoryEntriesRecursive, if_pos hin, hbytes]
      have hfl : fuelLoop inputs ≤ f := by
        rw [fuelBlock] at hfuel
        omega
      have hloop := ih.2 file (position + length) inputs [] hlist hfl
      rw [List.append_nil] at hloop
      rw [hloop]
      have h1 : 1 ≤ f - inputs.length := by
        have h2 := length_lt_fuelLoop inputs
        omega
      rw [entryLoop_nil _ _ _ h1]
      simp
    · intro file rpos inputs tailbuf hwf hfl
      cases inputs with
      | nil =>
        simp only [List.map_nil, List.flatten_nil, List.nil_append,
          List.length_nil, Nat.sub_zero]
        cases hres : entryLoop (f + 1) file tailbuf rpos with
        | none => rfl
        | some x =>
          cases x with
          | error e => rfl
          | ok pr =>
            cases pr with
            | mk es r => simp
      | cons e rest =>
        obtain ⟨hwfe, hwfr⟩ := wfList_cons hwf
        have hfe : fuelEntry e ≤ f := by
          rw [fuelLoop] at hfl
          have := Nat.le_max_left (fuelEntry e) (fuelLoop rest)
          omega
        have hfr : fuelLoop rest ≤ f := by
          rw [fuelLoop] at hfl
          have := Nat.le_max_right (fuelEntry e) (fuelLoop rest)
          omega
        have hsub : f + 1 - (rest.length + 1) = f - rest.length :=
          Nat.succ_sub_succ _ _
        have rLoop := ih.2 file rpos rest tailbuf hwfr hfr
        cases e with
        | res p sz t id ext name desc keys =>
          obtain ⟨hp, hs, ht, hid, hext, hkl, hkv, hname, hdesc⟩ := wfEntry_res hwfe
          have r0 : ∀ r' : List Nat,
              tryReadNext (u32Le 0 ++ (u32Le p ++ (u32Le sz ++ (u32Le t ++ r')))) =
                .ok (some ({ entryType := EntryType.ofNat 0, position := p,
                             size := sz, time := t }, r')) :=
            fun r' => tryReadNext_record 0 p sz t r' (by norm_num) hp hs ht
          have r1 : ∀ r' : List Nat, readU32 (u32Le id ++ r') = .ok (id, r') :=
            fun r' => readU32_u32Le r' hid
          have r2 : ∀ r' : List Nat, readExact 4 (ext ++ r') = .ok (ext, r') :=
            fun r' => readExact_append _ _ hext
          have r3 : ∀ r' : List Nat,
              readU32 (u32Le keys.length ++ r') = .ok (keys.length, r') :=
            fun r' => readU32_u32Le r' hkl
          have r4 : ∀ r' : List Nat,
              readNulTerminated (name ++ 0 :: r') = .ok (name, r') :=
            fun r' => readNulTerminated_append _ _ hname
          have r5 : ∀ r' : List Nat,
              readNulTerminated (desc ++ 0 :: r') = .ok (desc, r') :=
            fun r' => readNulTerminated_append _ _ hdesc
          have r6 : ∀ r' : List Nat,
              readKeys keys.length ((keys.map u32Le).flatten ++ r') = .ok (keys, r') :=
            fun r' => readKeys_append _ _ hkv
          have hof0 : EntryType.ofNat 0 = .resource := rfl
          rw [entryLoop]
          simp only [List.map_cons, List.flatten_cons, recordBytes,
            List.append_assoc, List.singleton_append, List.cons_append,
            List.nil_append, r0, hof0, r1, r2, r3,
            r4, r5, r6, rLoop, List.length_cons, hsub]
          cases hres : entryLoop (f - rest.length) file tailbuf rpos with
          | none => rfl
          | some x =>
            cases x with
            | error e2 => rfl
            | ok pr =>
              cases pr with
              | mk es r =>
                simp [toEntry]
        | dir p sz t name children =>
          obtain ⟨hp, hs, ht, hname, hblock⟩ := wfEntry_dir hwfe
          have r0 : ∀ r' : List Nat,
              tryReadNext (u32Le 1 ++ (u32Le p ++ (u32Le sz ++ (u32Le t ++ r')))) =
                .ok (some ({ entryType := EntryType.ofNat 1, position := p,
                             size := sz, time := t }, r')) :=
            fun r' => tryReadNext_record 1 p sz t r' (by norm_num) hp hs ht
          have r4 : ∀ r' : List Nat,
              readNulTerminated (name ++ 0 :: r') = .ok (name, r') :=
            fun r' => readNulTerminated_append _ _ hname
          have hof1 : EntryType.ofNat 1 = .directory := rfl
          have hfb : fuelBlock children ≤ f := by
            rw [fuelEntry] at hfe
            exact hfe
          have rDir := ih.1 file rpos p sz children hblock hfb
          rw [entryLoop]
          simp only [List.map_cons, List.flatten_cons, recordBytes,
            List.append_assoc, List.singleton_append, List.cons_append,
            List.nil_append, r0, hof1, r4, rDir,
            rLoop, List.length_cons, hsub]
          cases hres : entryLoop (f - rest.length) file tailbuf rpos with
          | none => rfl
          | some x =>
            cases x with
            | error e2 => rfl
            | ok pr =>
              cases pr with
              | mk es r =>
                simp [toEntry_dir]

/-- C1: for every well-formed directory block containing the records of
inputs (resources and directories in a given on-disk order, nested blocks
included), the decoder returns exactly one Entry per record, in the same
order, with every decoded field (entry header, id, reversed and
leading-zero-stripped extension, name, description, keys, directory
children) equal to the encoded inputs; toEntry spells out those expected
field values. -/
theorem directory_block_roundtrip (file : List Nat)
    (rpos position length fuel : Nat) (inputs : List EncInput)
    (hwf : wfBlock file position length inputs = true)
    (hfuel : fuelBlock inputs ≤ fuel) :
    readDirectoryEntriesRecursive fuel file rpos position length =
      some (.ok (inputs.map toEntry, position + length)) ∧
    (inputs.map toEntry).length = inputs.length :=
  ⟨(decode_wf_blocks fuel).1 file rpos position length inputs hwf hfuel,
    by simp⟩

theorem directory_block_roundtrip_witness :
    readDirectoryEntriesRecursive 6
      [0,0,0,0, 100,0,0,0, 50,0,0,0, 7,0,0,0, 3,0,0,0, 1,2,3,4, 1,0,0,0,
       97,0, 0, 11,0,0,0,
       1,0,0,0, 53,0,0,0, 31,0,0,0, 8,0,0,0, 100,0,
       0,0,0,0, 5,0,0,0, 7,0,0,0, 9,0,0,0, 5,0,0,0, 0,0,0,0, 0,0,0,0,
       98,0, 0] 0 0 53 =
      some (.ok (([EncInput.res 100 50 7 3 [1,2,3,4] [97] [] [11],
        EncInput.dir 53 31 8 [100]
          [EncInput.res 5 7 9 5 [0,0,0,0] [98] [] []]].map toEntry), 0 + 53)) ∧
    (([EncInput.res 100 50 7 3 [1,2,3,4] [97] [] [11],
      EncInput.dir 53 31 8 [100]
        [EncInput.res 5 7 9 5 [0,0,0,0] [98] [] []]].map toEntry)).length =
      ([EncInput.res 100 50 7 3 [1,2,3,4] [97] [] [11],
        EncInput.dir 53 31 8 [100]
          [EncInput.res 5 7 9 5 [0,0,0,0] [98] [] []]] : List EncInput).length :=
  directory_block_roundtrip
    [0,0,0,0, 100,0,0,0, 50,0,0,0, 7,0,0,0, 3,0,0,0, 1,2,3,4, 1,0,0,0,
     97,0, 0, 11,0,0,0,
     1,0,0,0, 53,0,0,0, 31,0,0,0, 8,0,0,0, 100,0,
     0,0,0,0, 5,0,0,0, 7,0,0,0, 9,0,0,0, 5,0,0,0, 0,0,0,0, 0,0,0,0,
     98,0, 0] 0 0 53 6
    [EncInput.res 100 50 7 3 [1,2,3,4] [97] [] [11],
     EncInput.dir 53 31 8 [100] [EncInput.res 5 7 9 5 [0,0,0,0] [98] [] []]]
    (by simp only [wfBlock, wfList, wfEntry]; decide)
    (by simp only [fuelBlock, fuelLoop, fuelEntry]; decide)

/-- C6: if a decoded entry header's type code is neither 0 nor 1, the block
decode fails immediately with UnknownEntryType carrying that code: after any
well-formed prefix of records, a record whose entry_type is c (c not 0, not
1) makes the whole block decode return exactly that error, so the entry is
never skipped and no entries are returned. -/
theorem unknown_entry_type_fails (file : List Nat)
    (rpos position length fuel : Nat) (inputs : List EncInput)
    (c p sz t : Nat) (junk : List Nat)
    (hin : position + length ≤ file.length)
    (hbytes : (file.drop position).take length =
      (inputs.map recordBytes).flatten ++
        (u32Le c ++ (u32Le p ++ (u32Le sz ++ (u32Le t ++ junk)))))
    (hlist : wfList file inputs = true) (hfl : fuelLoop inputs ≤ fuel)
    (hc : c < 2 ^ 32) (hc0 : c ≠ 0) (hc1 : c ≠ 1)
    (hp : p < 2 ^ 32) (hs : sz < 2 ^ 32) (ht : t < 2 ^ 32) :
    readDirectoryEntriesRecursive (fuel + 1) file rpos position length =
      some (.error (.unknownEntryType c)) := by
  rw [readDirectoryEntriesRecursive, if_pos hin, hbytes]
  rw [(decode_wf_blocks fuel).2 file (position + length) inputs _ hlist hfl]
  obtain ⟨g, hg⟩ : ∃ g, fuel - inputs.length = g + 1 :=
    ⟨fuel - inputs.length - 1, by have := length_lt_fuelLoop inputs; omega⟩
  rw [hg, entryLoop, tryReadNext_record c p sz t junk hc hp hs ht]
  have hoc : EntryType.ofNat c = .other c := by
    rw [EntryType.ofNat, if_neg hc0, if_neg hc1]
  simp only [hoc]

theorem unknown_entry_type_fails_witness :
    readDirectoryEntriesRecursive 2
      [2,0,0,0, 0,0,0,0, 0,0,0,0, 0,0,0,0] 0 0 16 =
      some (.error (.unknownEntryType 2)) :=
  unknown_entry_type_fails [2,0,0,0, 0,0,0,0, 0,0,0,0, 0,0,0,0] 0 0 16 1 []
    2 0 0 0 [] (by decide) (by decide) (by simp [wfList]) (by simp [fuelLoop])
    (by decide) (by decide) (by decide) (by decide) (by decide) (by decide)
